import Mathlib

/-!
Shallow embedding of the Mactext editor (src/main.cpp, first translation
unit) and verification of its specification claims.

Text is modelled as `List Char`.  A `Session` models one tab: the
`CodeEditor`'s plain-text document, its text cursor (anchor/position),
the `"filePath"` dynamic property, the tab title, and the document's
modified flag.  An `EditorState` models the `QTabWidget` contents and
current index.  The `MainWindow` slots become pure state-transition
functions; user-visible dialogs are modelled by an `Option Msg` output
and filesystem access by explicit function parameters.
-/

namespace Mactext

/-- Text and paths, as sequences of characters. -/
abbrev Str := List Char

/-- A `QTextCursor`: an anchor and a position; the selection is the
range between them (empty when they coincide). -/
structure Cursor where
  anchor : Nat
  pos : Nat
deriving Repr, DecidableEq

/-- One editor tab: the document text, the `"filePath"` property
(empty = untitled), the tab title, the text cursor and the document's
modified flag. -/
structure Session where
  text : Str
  filePath : Str
  displayName : Str
  cursor : Cursor
  modified : Bool
deriving Repr, DecidableEq

/-- The `QTabWidget` state: the tabs in order and the current index
(meaningful only when `sessions` is non-empty), plus the global
`btrue` startup flag from main.cpp. -/
structure EditorState where
  sessions : List Session
  current : Nat
  btrue : Bool
deriving Repr, DecidableEq

/-- The user-visible dialogs the modelled operations can raise. -/
inductive Msg where
  | ioErrorOpen
  | ioErrorSave
  | notFound (q : Str)
  | noOccurrences (q : Str)
  | replacedCount (n : Nat) (q r : Str)
deriving Repr, DecidableEq

/-! ## String operations (Qt library semantics) -/

/-- Models `QString::count(text)`: the number of potentially
overlapping occurrences, i.e. the number of start positions at which
the needle occurs. -/
def qtCount (s q : Str) : Nat :=
  ((List.range (s.length + 1)).filter (fun i => q.isPrefixOf (s.drop i))).length

/-- Models `QString::replace(before, after)` for non-empty `before`
(the caller `replaceAllText` guards the empty case): occurrences are
matched non-overlapping, left to right, in the original string, and the
inserted replacement text is not rescanned. -/
def qtReplace (s q r : Str) : Str :=
  match s with
  | [] => []
  | c :: rest =>
    if h : q ≠ [] ∧ q.isPrefixOf (c :: rest) then
      r ++ qtReplace ((c :: rest).drop q.length) q r
    else
      c :: qtReplace rest q r
termination_by s.length
decreasing_by
  · simp only [List.length_drop, List.length_cons]
    have hq : q.length ≥ 1 := List.length_pos.mpr h.1
    omega
  · simp

/-- The number of non-overlapping, left-to-right occurrences of `q` in
`s` — the number of substitutions `qtReplace` actually performs. -/
def countNonOverlap (s q : Str) : Nat :=
  match s with
  | [] => 0
  | c :: rest =>
    if h : q ≠ [] ∧ q.isPrefixOf (c :: rest) then
      1 + countNonOverlap ((c :: rest).drop q.length) q
    else
      countNonOverlap rest q
termination_by s.length
decreasing_by
  · simp only [List.length_drop, List.length_cons]
    have hq : q.length ≥ 1 := List.length_pos.mpr h.1
    omega
  · simp

/-- Models the case-insensitive comparison Qt uses for a document
search with default `QTextDocument::FindFlags` (no `FindCaseSensitively`
passed): the needle matches at the front of `s` when the two agree
after case folding, modelled with `Char.toLower`. -/
def ciPrefixOf (q s : Str) : Bool :=
  (q.map Char.toLower).isPrefixOf (s.map Char.toLower)

/-- Scan of candidate match positions `start, start + 1, ...`, one per
unit of fuel. -/
def findFromAux (s q : Str) : Nat → Nat → Option Nat
  | 0, _ => none
  | fuel + 1, start =>
    if ciPrefixOf q (s.drop start) then some start
    else findFromAux s q fuel (start + 1)

/-- First position `i ≥ start` at which `q` occurs case-insensitively
in `s` (models the forward document search underlying
`QPlainTextEdit::find` with default flags): candidate positions
`start .. s.length` are scanned in order. -/
def findFrom (s q : Str) (start : Nat) : Option Nat :=
  findFromAux s q (s.length + 1 - start) start

/-! ## Cursor and selection (QTextCursor semantics) -/

/-- Start of the selection: the smaller of anchor and position. -/
def selStart (cur : Cursor) : Nat := min cur.anchor cur.pos

/-- End of the selection: the larger of anchor and position. -/
def selEnd (cur : Cursor) : Nat := max cur.anchor cur.pos

/-- Models `QTextCursor::hasSelection`. -/
def hasSelection (cur : Cursor) : Bool := cur.anchor ≠ cur.pos

/-- Models `QTextCursor::selectedText` on a session's cursor: the text
between the selection bounds. -/
def selectedText (sess : Session) : Str :=
  (sess.text.drop (selStart sess.cursor)).take (selEnd sess.cursor - selStart sess.cursor)

/-- Models `QTextCursor::insertText(replacement)`: the selection is
replaced by the inserted text; the editor's cursor ends up collapsed
just after it; the document becomes modified. -/
def insertAtCursor (sess : Session) (r : Str) : Session :=
  let a := selStart sess.cursor
  let b := selEnd sess.cursor
  { sess with
    text := sess.text.take a ++ r ++ sess.text.drop b
    cursor := ⟨a + r.length, a + r.length⟩
    modified := true }

/-- Models `QPlainTextEdit::find(text)` with default (forward,
case-insensitive) flags: the search starts at the end of the current
selection; on success the match is selected (cursor at its end); on
failure the cursor is left unchanged.  Returns whether a match was
found. -/
def editorFind (sess : Session) (q : Str) : Session × Bool :=
  match findFrom sess.text q (selEnd sess.cursor) with
  | some i => ({ sess with cursor := ⟨i, i + q.length⟩ }, true)
  | none => (sess, false)

/-- Models `QPlainTextEdit::setPlainText(content)`: the whole document
is replaced in one assignment and the cursor is reset to the start of
the document.  The underlying `QWidgetTextControlPrivate::setContent`
ends with `doc->setModified(false)`, so the document is left
*unmodified* (which is why the explicit `setModified(false)` after a
fresh load in main.cpp is redundant). -/
def setPlainText (sess : Session) (t : Str) : Session :=
  { sess with text := t, cursor := ⟨0, 0⟩, modified := false }

/-! ## Tab widget -/

/-- Models `MainWindow::currentEditor`: the widget at the current tab
index, if any. -/
def currentSession (st : EditorState) : Option Session :=
  st.sessions.get? st.current

/-- Replaces the session at the current tab index (the effect of the
slots mutating the current editor widget). -/
def setCurrentSession (st : EditorState) (sess : Session) : EditorState :=
  { st with sessions := st.sessions.set st.current sess }

/-- Models `QFileInfo(fileName).fileName()`: the component after the
last path separator. -/
def baseName (p : Str) : Str :=
  (p.reverse.takeWhile (fun c => c ≠ '/')).reverse

/-- The session created by `MainWindow::openFileFromEvent` for a fresh
file: content loaded, path property set, tab titled with the file name,
modified flag reset. -/
def newSessionFor (p content : Str) : Session :=
  { text := content, filePath := p, displayName := baseName p
    cursor := ⟨0, 0⟩, modified := false }

/-- Models `QTabWidget::removeTab(i)` together with its current-index
adjustment: removing a tab before the current one shifts the current
index down; removing the current last tab selects the new last tab. -/
def removeTabAt (st : EditorState) (i : Nat) : EditorState :=
  let remaining := st.sessions.eraseIdx i
  let cur :=
    if i < st.current then st.current - 1
    else if st.current ≥ remaining.length ∧ remaining.length ≠ 0 then remaining.length - 1
    else st.current
  { st with sessions := remaining, current := cur }

/-! ## MainWindow slots -/

/-- Models `MainWindow::openFileFromEvent(fileName)`.  The filesystem
is the explicit parameter `fs` (`none` = the file cannot be opened for
reading).  The code opens the file first; only on a successful read
does it look for an already-open tab with the same `"filePath"`
property (activating it without touching its content), and otherwise
appends a freshly loaded session and activates it, clearing `btrue`.
An unreadable file raises the "Could not open file" warning and changes
nothing. -/
def openFileFromEvent (fs : Str → Option Str) (st : EditorState) (p : Str) :
    EditorState × Option Msg :=
  match fs p with
  | some content =>
    match st.sessions.findIdx? (fun s => s.filePath == p) with
    | some i => ({ st with current := i }, none)
    | none =>
      ({ sessions := st.sessions ++ [newSessionFor p content]
         current := st.sessions.length
         btrue := false }, none)
  | none => (st, some Msg.ioErrorOpen)

/-- Models `MainWindow::saveToFile(editor, fileName)` restricted to the
given session: an empty name returns `false` with no effect; a
successful write rebinds the path property, retitles the tab with the
file name and clears the modified flag; a failed write raises the
"Could not save file" warning and leaves the session unchanged.
`writable` tells whether opening the path for writing succeeds.
Returns the updated session, the Bool result and the raised dialog. -/
def saveToFile (writable : Str → Bool) (sess : Session) (fileName : Str) :
    Session × Bool × Option Msg :=
  if fileName = [] then (sess, false, none)
  else if writable fileName then
    ({ sess with filePath := fileName, displayName := baseName fileName, modified := false },
     true, none)
  else (sess, false, some Msg.ioErrorSave)

/-- Models `MainWindow::findText(text)`: a no-op for an empty query or
no current editor; otherwise a forward find from the cursor, raising
the "not found" information dialog when it fails. -/
def findText (st : EditorState) (q : Str) : EditorState × Option Msg :=
  if q = [] then (st, none)
  else
    match currentSession st with
    | none => (st, none)
    | some sess =>
      match editorFind sess q with
      | (sess2, true) => (setCurrentSession st sess2, none)
      | (_, false) => (st, some (Msg.notFound q))

/-- Models `MainWindow::replaceText(text, replacement)`: a no-op for an
empty query or no current editor; otherwise, when the cursor has a
selection whose text equals the query, the selection is replaced in
place; in either case `findText` then runs on the resulting state. -/
def replaceText (st : EditorState) (q r : Str) : EditorState × Option Msg :=
  if q = [] then (st, none)
  else
    match currentSession st with
    | none => (st, none)
    | some sess =>
      if hasSelection sess.cursor ∧ selectedText sess = q then
        findText (setCurrentSession st (insertAtCursor sess r)) q
      else
        findText st q

/-- The effect of `MainWindow::replaceAllText` on the current session:
count the occurrences with `QString::count`; zero raises the
"no occurrences" dialog with no mutation; otherwise the whole content
is rewritten via `QString::replace` + `setPlainText` and the counted
number is reported. -/
def replaceAllSession (sess : Session) (q r : Str) : Session × Option Msg :=
  if qtCount sess.text q = 0 then (sess, some (Msg.noOccurrences q))
  else
    (setPlainText sess (qtReplace sess.text q r),
     some (Msg.replacedCount (qtCount sess.text q) q r))

/-- Models `MainWindow::replaceAllText(text, replacement)`: a no-op for
an empty query or no current editor; otherwise `replaceAllSession` on
the current session. -/
def replaceAllText (st : EditorState) (q r : Str) : EditorState × Option Msg :=
  if q = [] then (st, none)
  else
    match currentSession st with
    | none => (st, none)
    | some sess =>
      if qtCount sess.text q = 0 then (st, (replaceAllSession sess q r).2)
      else (setCurrentSession st (replaceAllSession sess q r).1, (replaceAllSession sess q r).2)

/-- The reply a user can give to the "Save Changes" question dialog. -/
inductive Reply where
  | yes
  | no
  | cancel
deriving Repr, DecidableEq

/-- Models `MainWindow::promptSave(editor)`.  `reply` is the answer the
user would give to the question dialog, `saveAsName` the path the user
would pick in the Save-As dialog (empty = cancelled).  Returns the
updated session, whether the caller may proceed with the close, and
whether the question dialog was actually shown. -/
def promptSave (writable : Str → Bool) (reply : Reply) (saveAsName : Str)
    (sess : Session) : Session × Bool × Bool :=
  if sess.modified = false then (sess, true, false)
  else
    match reply with
    | Reply.yes =>
      if sess.filePath = [] then
        if saveAsName = [] then (sess, false, true)
        else
          let res := saveToFile writable sess saveAsName
          (res.1, res.2.1, true)
      else
        let res := saveToFile writable sess sess.filePath
        (res.1, res.2.1, true)
    | Reply.no => (sess, true, true)
    | Reply.cancel => (sess, false, true)

/-- Models `MainWindow::closeTab(index)`: the prompt flow, then on a
go-ahead the tab is removed.  Returns the new state and whether the
user was prompted. -/
def closeTab (writable : Str → Bool) (reply : Reply) (saveAsName : Str)
    (st : EditorState) (i : Nat) : EditorState × Bool :=
  match st.sessions.get? i with
  | none => (st, false)
  | some sess =>
    match promptSave writable reply saveAsName sess with
    | (sess2, true, prompted) =>
      (removeTabAt { st with sessions := st.sessions.set i sess2 } i, prompted)
    | (sess2, false, prompted) =>
      ({ st with sessions := st.sessions.set i sess2 }, prompted)

/-! ## Session-level event machine (for the modified-flag invariant) -/

/-- The text-mutating / persistence events a single session can
undergo.  `loadOk` is the fresh load performed by `openFileFromEvent`;
`saveOk` a successful `saveToFile`; `mutate` any toolkit text edit
(which always sets the document's modified flag); `replAll` the
`replaceAllText` slot applied while this session is current. -/
inductive Ev where
  | loadOk (p content : Str)
  | saveOk (p : Str)
  | mutate (t : Str) (cur : Cursor)
  | replAll (q r : Str)
deriving Repr, DecidableEq

/-- One step of the session event machine. -/
def sessStep (sess : Session) : Ev → Session
  | Ev.loadOk p content => newSessionFor p content
  | Ev.saveOk p => (saveToFile (fun _ => true) sess p).1
  | Ev.mutate t cur => { sess with text := t, cursor := cur, modified := true }
  | Ev.replAll q r => if q = [] then sess else (replaceAllSession sess q r).1

/-- Whether an event is a (successful) load or save. -/
def isLoadOrSave : Ev → Bool
  | Ev.loadOk _ _ => true
  | Ev.saveOk _ => true
  | _ => false

/-- Whether an event is an ordinary toolkit text edit. -/
def isMutate : Ev → Bool
  | Ev.mutate _ _ => true
  | _ => false

/-- The number of sessions in a tab list bound to a given path. -/
def countBound (sessions : List Session) (p : Str) : Nat :=
  (sessions.filter (fun s => s.filePath == p)).length

/-! ## Supporting lemmas on the string operations -/

theorem qtCount_nil (q : Str) : qtCount [] q = if q = [] then 1 else 0 := by
  cases q <;> simp [qtCount, List.isPrefixOf]

theorem qtCount_cons (c : Char) (rest q : Str) :
    qtCount (c :: rest) q =
      (if q.isPrefixOf (c :: rest) then 1 else 0) + qtCount rest q := by
  unfold qtCount
  rw [show (c :: rest).length + 1 = (rest.length + 1) + 1 by simp,
      List.range_succ_eq_map, List.filter_cons, List.filter_map]
  by_cases h : q.isPrefixOf (c :: rest) <;>
    simp [h, Function.comp_def, Nat.succ_eq_add_one, List.drop_succ_cons, Nat.add_comm]

theorem qtCount_empty_query (s : Str) : qtCount s [] = s.length + 1 := by
  induction s with
  | nil => simp [qtCount_nil]
  | cons c rest ih => rw [qtCount_cons]; simp [List.isPrefixOf, ih, Nat.add_comm]

theorem query_ne_nil_of_qtCount_eq_zero {s q : Str} (h : qtCount s q = 0) : q ≠ [] := by
  intro hq
  rw [hq, qtCount_empty_query] at h
  omega

theorem qtCount_drop_le (s q : Str) : ∀ k, qtCount (s.drop k) q ≤ qtCount s q := by
  induction s with
  | nil => intro k; simp
  | cons c rest ih =>
    intro k
    cases k with
    | zero => simp
    | succ k =>
      rw [List.drop_succ_cons, qtCount_cons]
      calc qtCount (rest.drop k) q ≤ qtCount rest q := ih k
        _ ≤ (if q.isPrefixOf (c :: rest) then 1 else 0) + qtCount rest q := Nat.le_add_left _ _

theorem qtCount_head_match {c : Char} {rest q : Str} (hq : q ≠ [])
    (hp : q.isPrefixOf (c :: rest) = true) :
    1 + qtCount ((c :: rest).drop q.length) q ≤ qtCount (c :: rest) q := by
  have h1 : 1 ≤ q.length := List.length_pos.mpr hq
  have h2 : (c :: rest).drop q.length = rest.drop (q.length - 1) := by
    rcases Nat.exists_eq_add_of_le h1 with ⟨m, hm⟩
    rw [hm]
    simp [Nat.add_comm, List.drop_succ_cons]
  have h3 := qtCount_drop_le rest q (q.length - 1)
  rw [qtCount_cons, hp, h2]
  simp
  omega

theorem countNonOverlap_le_qtCount (q : Str) (hq : q ≠ []) :
    ∀ s : Str, countNonOverlap s q ≤ qtCount s q := by
  have H : ∀ n : Nat, ∀ s : Str, s.length = n → countNonOverlap s q ≤ qtCount s q := by
    intro n
    induction n using Nat.strong_induction_on with
    | _ n ih =>
      intro s hs
      match s with
      | [] => simp [countNonOverlap]
      | c :: rest =>
        rw [countNonOverlap]
        simp only [List.length_cons] at hs
        by_cases hp : q.isPrefixOf (c :: rest)
        · rw [dif_pos ⟨hq, hp⟩]
          have hlen : ((c :: rest).drop q.length).length < n := by
            have h1 : 1 ≤ q.length := List.length_pos.mpr hq
            simp only [List.length_drop, List.length_cons]
            omega
          have := ih _ hlen ((c :: rest).drop q.length) rfl
          have := qtCount_head_match hq hp
          omega
        · rw [dif_neg (by simp [hp])]
          have hlen : rest.length < n := by omega
          have h1 := ih _ hlen rest rfl
          have h2 : qtCount rest q ≤ qtCount (c :: rest) q := by
            rw [qtCount_cons]; exact Nat.le_add_left _ _
          omega
  exact fun s => H s.length s rfl

theorem qtCount_singleton (s : Str) (c : Char) : qtCount s [c] = s.count c := by
  induction s with
  | nil => simp [qtCount_nil]
  | cons x rest ih =>
    rw [qtCount_cons, List.count_cons, ih]
    by_cases h : c = x <;> simp [List.isPrefixOf, h, beq_iff_eq, Nat.add_comm]
    · exact fun h2 => absurd h2.symm h

theorem countNonOverlap_singleton (s : Str) (c : Char) :
    countNonOverlap s [c] = s.count c := by
  induction s with
  | nil => simp [countNonOverlap]
  | cons x rest ih =>
    rw [countNonOverlap, List.count_cons]
    by_cases h : c = x
    · subst h
      rw [dif_pos (by simp [List.isPrefixOf])]
      simp [List.drop_succ_cons, ih, Nat.add_comm]
    · rw [dif_neg (by simp [List.isPrefixOf]; exact fun h2 => h h2)]
      simp [ih, beq_iff_eq]
      exact fun h2 => h h2.symm

theorem qtReplace_singleton_count {c : Char} {r : Str} (hc : c ∉ r) (s : Str) :
    (qtReplace s [c] r).count c = 0 := by
  induction s with
  | nil => simp [qtReplace]
  | cons x rest ih =>
    rw [qtReplace]
    by_cases h : c = x
    · subst h
      rw [dif_pos (by simp [List.isPrefixOf])]
      simp [List.drop_succ_cons, List.count_append, ih, List.count_eq_zero.mpr hc]
    · rw [dif_neg (by simp [List.isPrefixOf]; exact fun h2 => h h2)]
      simp [List.count_cons, ih, beq_iff_eq]
      exact fun h2 => h h2.symm

/-! ## Supporting lemmas on forward search -/

theorem ciPrefixOf_nil {q : Str} (hq : q ≠ []) : ciPrefixOf q [] = false := by
  cases q with
  | nil => exact absurd rfl hq
  | cons a t => simp [ciPrefixOf, List.isPrefixOf]

theorem findFromAux_some {s q : Str} : ∀ (fuel start i : Nat),
    findFromAux s q fuel start = some i →
    start ≤ i ∧ ciPrefixOf q (s.drop i) = true ∧
      ∀ j, start ≤ j → j < i → ciPrefixOf q (s.drop j) = false := by
  intro fuel
  induction fuel with
  | zero => intro start i h; exact absurd h (by simp [findFromAux])
  | succ fuel ih =>
    intro start i h
    rw [findFromAux] at h
    by_cases hp : ciPrefixOf q (s.drop start)
    · rw [if_pos hp] at h
      obtain rfl : start = i := by injection h
      exact ⟨Nat.le_refl _, hp, fun j h1 h2 => absurd (Nat.lt_of_le_of_lt h1 h2) (by omega)⟩
    · rw [if_neg hp] at h
      obtain ⟨h1, h2, h3⟩ := ih (start + 1) i h
      refine ⟨by omega, h2, fun j hj1 hj2 => ?_⟩
      by_cases hj : j = start
      · rw [hj]; exact Bool.eq_false_iff.mpr hp
      · exact h3 j (by omega) hj2

theorem findFromAux_none {s q : Str} : ∀ (fuel start : Nat),
    findFromAux s q fuel start = none →
    ∀ j, start ≤ j → j < start + fuel → ciPrefixOf q (s.drop j) = false := by
  intro fuel
  induction fuel with
  | zero => intro start h j hj1 hj2; omega
  | succ fuel ih =>
    intro start h j hj1 hj2
    rw [findFromAux] at h
    by_cases hp : ciPrefixOf q (s.drop start)
    · rw [if_pos hp] at h; exact absurd h (by simp)
    · rw [if_neg hp] at h
      by_cases hj : j = start
      · rw [hj]; exact Bool.eq_false_iff.mpr hp
      · exact ih (start + 1) h j (by omega) (by omega)

theorem findFrom_some {s q : Str} {start i : Nat} (h : findFrom s q start = some i) :
    start ≤ i ∧ ciPrefixOf q (s.drop i) = true ∧
      ∀ j, start ≤ j → j < i → ciPrefixOf q (s.drop j) = false :=
  findFromAux_some _ start i h

theorem findFrom_none {s q : Str} {start : Nat} (hq : q ≠ [])
    (h : findFrom s q start = none) :
    ∀ j, start ≤ j → ciPrefixOf q (s.drop j) = false := by
  intro j hj
  by_cases hle : j ≤ s.length
  · have hstart : start ≤ s.length := Nat.le_trans hj hle
    exact findFromAux_none _ start h j hj (by omega)
  · have hdrop : s.drop j = [] := List.drop_eq_nil_of_le (by omega)
    rw [hdrop]
    exact ciPrefixOf_nil hq

/-! ## Supporting lemmas on the tab list -/

theorem set_get_self : ∀ (l : List Session) (i : Nat) (a : Session),
    l.get? i = some a → l.set i a = l
  | [], i, a, h => by simp at h
  | b :: t, 0, a, h => by
    simp only [List.get?] at h
    injection h with h
    simp [h]
  | b :: t, i + 1, a, h => by
    simp only [List.get?] at h
    simp [set_get_self t i a h]

theorem currentSession_setCurrentSession {st : EditorState} {sess sess2 : Session}
    (h : currentSession st = some sess) :
    currentSession (setCurrentSession st sess2) = some sess2 := by
  unfold currentSession setCurrentSession at *
  rw [List.get?_eq_getElem?] at h ⊢
  obtain ⟨hlt, -⟩ := List.getElem?_eq_some_iff.mp h
  exact List.getElem?_set_self (by simpa using hlt)

theorem setCurrentSession_self {st : EditorState} {sess : Session}
    (h : currentSession st = some sess) : setCurrentSession st sess = st := by
  unfold currentSession at h
  unfold setCurrentSession
  rw [set_get_self _ _ _ h]

theorem countBound_eq_zero_iff_findIdx?_none {sessions : List Session} {p : Str} :
    countBound sessions p = 0 ↔
      sessions.findIdx? (fun s => s.filePath == p) = none := by
  rw [countBound, List.length_eq_zero, List.filter_eq_nil_iff,
      List.findIdx?_eq_none_iff]
  constructor
  · intro h x hx
    simpa using h x hx
  · intro h x hx
    simpa using h x hx

theorem countBound_append (l1 l2 : List Session) (p : Str) :
    countBound (l1 ++ l2) p = countBound l1 p + countBound l2 p := by
  simp [countBound, List.filter_append]

/-! ## Claim theorems -/

/-- C4: for every path whose file is unreadable, `openFileFromEvent`
raises the IO-error warning, adds no session and leaves the whole
editor state (sessions and active index) unchanged. -/
theorem c4_open_unreadable_unchanged (fs : Str → Option Str) (st : EditorState) (p : Str)
    (h : fs p = none) :
    openFileFromEvent fs st p = (st, some Msg.ioErrorOpen) := by
  unfold openFileFromEvent
  rw [h]

/-- Witness for C4 at a concrete unreadable path. -/
theorem c4_witness :
    openFileFromEvent (fun _ => none) ⟨[], 0, true⟩ ("/a.txt".toList) =
      (⟨[], 0, true⟩, some Msg.ioErrorOpen) :=
  c4_open_unreadable_unchanged (fun _ => none) ⟨[], 0, true⟩ ("/a.txt".toList) rfl

/-- C6: saving a session to a non-empty path: on write failure the
IO-error warning is raised and the session (bound path, display name
and modified flag included) is unchanged; on success the session is
rebound to the path, the display name becomes the file name of the path
and the modified flag clears. -/
theorem c6_save_session (writable : Str → Bool) (sess : Session) (fileName : Str)
    (hne : fileName ≠ []) :
    (writable fileName = false →
      saveToFile writable sess fileName = (sess, false, some Msg.ioErrorSave)) ∧
    (writable fileName = true →
      saveToFile writable sess fileName =
        ({ sess with
            filePath := fileName
            displayName := baseName fileName
            modified := false }, true, none)) := by
  unfold saveToFile
  constructor <;> intro h <;> simp [hne, h]

/-- Witness for C6: a failing and a succeeding write at concrete inputs. -/
theorem c6_witness :
    saveToFile (fun _ => false) ⟨"hi".toList, [], [], ⟨0, 0⟩, true⟩ ("/d/f.txt".toList) =
      (⟨"hi".toList, [], [], ⟨0, 0⟩, true⟩, false, some Msg.ioErrorSave) ∧
    saveToFile (fun _ => true) ⟨"hi".toList, [], [], ⟨0, 0⟩, true⟩ ("/d/f.txt".toList) =
      (⟨"hi".toList, "/d/f.txt".toList, "f.txt".toList, ⟨0, 0⟩, false⟩, true, none) := by
  constructor
  · exact (c6_save_session (fun _ => false) ⟨"hi".toList, [], [], ⟨0, 0⟩, true⟩
      ("/d/f.txt".toList) (by decide)).1 rfl
  · have h := (c6_save_session (fun _ => true) ⟨"hi".toList, [], [], ⟨0, 0⟩, true⟩
      ("/d/f.txt".toList) (by decide)).2 rfl
    rw [h]
    decide

/-- C7: when the active session's text contains zero occurrences of the
query, `replaceAllText` performs no mutation at all and reports the
"no occurrences" dialog. -/
theorem c7_replaceAll_no_occurrences (st : EditorState) (sess : Session) (q r : Str)
    (hcur : currentSession st = some sess) (h0 : qtCount sess.text q = 0) :
    replaceAllText st q r = (st, some (Msg.noOccurrences q)) := by
  have hq : q ≠ [] := query_ne_nil_of_qtCount_eq_zero h0
  unfold replaceAllText
  rw [if_neg hq, hcur]
  simp [replaceAllSession, h0]

/-- Witness for C7 at a concrete occurrence-free text. -/
theorem c7_witness :
    replaceAllText ⟨[⟨"abc".toList, [], [], ⟨0, 0⟩, false⟩], 0, true⟩
        ("xy".toList) ("z".toList) =
      (⟨[⟨"abc".toList, [], [], ⟨0, 0⟩, false⟩], 0, true⟩,
        some (Msg.noOccurrences ("xy".toList))) :=
  c7_replaceAll_no_occurrences ⟨[⟨"abc".toList, [], [], ⟨0, 0⟩, false⟩], 0, true⟩
    ⟨"abc".toList, [], [], ⟨0, 0⟩, false⟩ ("xy".toList) ("z".toList) rfl (by decide)

/-- C9: closing a tab whose session is unmodified removes the session
immediately and never shows the save prompt, whatever the user would
have answered. -/
theorem c9_close_unmodified (writable : Str → Bool) (reply : Reply) (saveAsName : Str)
    (st : EditorState) (i : Nat) (sess : Session)
    (hget : st.sessions.get? i = some sess) (hmod : sess.modified = false) :
    closeTab writable reply saveAsName st i = (removeTabAt st i, false) ∧
      (removeTabAt st i).sessions = st.sessions.eraseIdx i := by
  refine ⟨?_, rfl⟩
  have hset := set_get_self _ _ _ hget
  have hget2 : st.sessions[i]? = some sess := by
    rw [← List.get?_eq_getElem?]; exact hget
  unfold closeTab promptSave
  simp [hget, hget2, hmod, hset]

/-- Witness for C9: closing a concrete unmodified tab with a user who
would answer Cancel. -/
theorem c9_witness :
    closeTab (fun _ => true) Reply.cancel []
        ⟨[⟨"hi".toList, [], [], ⟨0, 0⟩, false⟩], 0, true⟩ 0 =
      (removeTabAt ⟨[⟨"hi".toList, [], [], ⟨0, 0⟩, false⟩], 0, true⟩ 0, false) :=
  (c9_close_unmodified (fun _ => true) Reply.cancel []
    ⟨[⟨"hi".toList, [], [], ⟨0, 0⟩, false⟩], 0, true⟩ 0
    ⟨"hi".toList, [], [], ⟨0, 0⟩, false⟩ rfl rfl).1

/-- An ordinary text edit always sets the modified flag. -/
theorem sessStep_mutate_modified {sess : Session} {e : Ev}
    (he : isMutate e = true) : (sessStep sess e).modified = true := by
  cases e with
  | loadOk p c => simp [isMutate] at he
  | saveOk p => simp [isMutate] at he
  | mutate t cur => simp [sessStep]
  | replAll q r => simp [isMutate] at he

/-- C2 counterexample: a modified session, text `"aa"`, undergoes a
substituting `replaceAllText` with query `"a"` — an event that is
neither a load nor a save — and ends up *unmodified*: the rewrite runs
through `setPlainText`, which leaves the document's modified flag
clear, contradicting both "becomes true on the replaceAll rewrite" and
"stays true until the next successful load or save". -/
theorem c2_counterexample :
    isLoadOrSave (Ev.replAll ("a".toList) ("b".toList)) = false ∧
    qtCount ("aa".toList) ("a".toList) ≠ 0 ∧
    (sessStep ⟨"aa".toList, [], [], ⟨0, 0⟩, true⟩
      (Ev.replAll ("a".toList) ("b".toList))).modified = false := by
  have h2 : qtCount (['a', 'a'] : Str) ['a'] = 2 := by decide
  refine ⟨rfl, by decide, ?_⟩
  simp [sessStep, replaceAllSession, h2, setPlainText]

/-- C2 (amended): the modified flag is false immediately after a fresh
load or a successful save; any ordinary text edit sets it true and it
stays true across any sequence of ordinary edits; but the whole-content
rewrite done by a substituting `replaceAllText` goes through
`setPlainText` and therefore *clears* the flag instead of setting it. -/
theorem c2_modified_amended (sess : Session) :
    (∀ p content, (sessStep sess (Ev.loadOk p content)).modified = false) ∧
    (∀ p, p ≠ [] → (sessStep sess (Ev.saveOk p)).modified = false) ∧
    (∀ t cur, (sessStep sess (Ev.mutate t cur)).modified = true) ∧
    (∀ q r, q ≠ [] → qtCount sess.text q ≠ 0 →
      (sessStep sess (Ev.replAll q r)).modified = false) ∧
    (∀ evs : List Ev, sess.modified = true →
      (∀ e ∈ evs, isMutate e = true) →
      (List.foldl sessStep sess evs).modified = true) := by
  refine ⟨?_, ?_, ?_, ?_, ?_⟩
  · intro p content; simp [sessStep, newSessionFor]
  · intro p hp; simp [sessStep, saveToFile, hp]
  · intro t cur; simp [sessStep]
  · intro q r hq h0
    simp only [sessStep]
    rw [if_neg hq]
    unfold replaceAllSession
    simp [h0, setPlainText]
  · intro evs
    induction evs generalizing sess with
    | nil => intro hm _; simpa
    | cons e t ih =>
      intro hm hall
      simp only [List.foldl_cons]
      exact ih (sessStep sess e) (sessStep_mutate_modified (hall e (by simp)))
        (fun x hx => hall x (List.mem_cons_of_mem e hx))

/-- Witness for C2 (amended): a concrete modified session stays
modified across two ordinary edits, a save clears the flag, and a
substituting replace-all clears it too. -/
theorem c2_witness :
    (List.foldl sessStep ⟨"aa".toList, [], [], ⟨0, 0⟩, true⟩
      [Ev.mutate ("ab".toList) ⟨2, 2⟩, Ev.mutate ("abc".toList) ⟨3, 3⟩]).modified
        = true ∧
    (sessStep ⟨"aa".toList, [], [], ⟨0, 0⟩, true⟩ (Ev.saveOk ("/a".toList))).modified
        = false ∧
    (sessStep ⟨"aa".toList, [], [], ⟨0, 0⟩, true⟩
      (Ev.replAll ("a".toList) ("c".toList))).modified = false := by
  refine ⟨?_, ?_, ?_⟩
  · exact (c2_modified_amended ⟨"aa".toList, [], [], ⟨0, 0⟩, true⟩).2.2.2.2
      [Ev.mutate ("ab".toList) ⟨2, 2⟩, Ev.mutate ("abc".toList) ⟨3, 3⟩]
      rfl (by decide)
  · exact (c2_modified_amended ⟨"aa".toList, [], [], ⟨0, 0⟩, true⟩).2.1
      ("/a".toList) (by decide)
  · exact (c2_modified_amended ⟨"aa".toList, [], [], ⟨0, 0⟩, true⟩).2.2.2.1
      ("a".toList) ("c".toList) (by decide) (by decide)

/-- C5: with a non-empty query and an active session, `replaceText`
replaces the selection in place exactly when the selected text equals
the query, and in either case then behaves as `findText` on the
resulting state. -/
theorem c5_replaceCurrent (st : EditorState) (sess : Session) (q r : Str)
    (hq : q ≠ []) (hcur : currentSession st = some sess) :
    (hasSelection sess.cursor = true → selectedText sess = q →
      replaceText st q r = findText (setCurrentSession st (insertAtCursor sess r)) q) ∧
    (¬(hasSelection sess.cursor = true ∧ selectedText sess = q) →
      replaceText st q r = findText st q) := by
  unfold replaceText
  rw [if_neg hq]
  simp only [hcur]
  constructor
  · intro h1 h2
    simp [h1, h2]
  · intro h
    rw [if_neg h]

/-- Witness for C5: a concrete selection equal to the query is replaced
in place and the cursor advances to the next occurrence. -/
theorem c5_witness :
    replaceText ⟨[⟨"abab".toList, [], [], ⟨0, 2⟩, false⟩], 0, true⟩
        ("ab".toList) ("x".toList) =
      findText
        (setCurrentSession ⟨[⟨"abab".toList, [], [], ⟨0, 2⟩, false⟩], 0, true⟩
          (insertAtCursor ⟨"abab".toList, [], [], ⟨0, 2⟩, false⟩ ("x".toList)))
        ("ab".toList) :=
  (c5_replaceCurrent ⟨[⟨"abab".toList, [], [], ⟨0, 2⟩, false⟩], 0, true⟩
    ⟨"abab".toList, [], [], ⟨0, 2⟩, false⟩ ("ab".toList) ("x".toList)
    (by decide) rfl).1 rfl rfl

/-- C8 counterexample: document `"ABC"`, query `"abc"`, cursor at the
start.  The text contains no case-sensitive occurrence of the query
(its exact-match occurrence count is 0), so the claimed case-sensitive
search would report "not found"; the code's default-flag find is
case-insensitive, so it instead selects the match at position 0 and
raises no dialog. -/
theorem c8_counterexample :
    qtCount ("ABC".toList) ("abc".toList) = 0 ∧
    findText ⟨[⟨"ABC".toList, [], [], ⟨0, 0⟩, false⟩], 0, true⟩ ("abc".toList) =
      (⟨[⟨"ABC".toList, [], [], ⟨0, 3⟩, false⟩], 0, true⟩, none) := by
  decide

/-- C8 (amended): `findText` is a silent no-op on an empty query or
without an active session; otherwise it looks for the first literal
*case-insensitive* match (default `QTextDocument::FindFlags`, no
`FindCaseSensitively`) at or after the end of the current selection,
without wrapping; when none exists it raises the "not found" dialog
and leaves the state (cursor included) unchanged, and when one exists
at position `i` it selects it, `i` being the least match position at
or after the search start. -/
theorem c8_find_amended (st : EditorState) (q : Str) :
    (q = [] → findText st q = (st, none)) ∧
    (currentSession st = none → findText st q = (st, none)) ∧
    (∀ sess, currentSession st = some sess → q ≠ [] →
      findFrom sess.text q (selEnd sess.cursor) = none →
        findText st q = (st, some (Msg.notFound q)) ∧
        ∀ j, selEnd sess.cursor ≤ j → ciPrefixOf q (sess.text.drop j) = false) ∧
    (∀ sess i, currentSession st = some sess → q ≠ [] →
      findFrom sess.text q (selEnd sess.cursor) = some i →
        findText st q =
          (setCurrentSession st { sess with cursor := ⟨i, i + q.length⟩ }, none) ∧
        selEnd sess.cursor ≤ i ∧ ciPrefixOf q (sess.text.drop i) = true ∧
        ∀ j, selEnd sess.cursor ≤ j → j < i →
          ciPrefixOf q (sess.text.drop j) = false) := by
  refine ⟨?_, ?_, ?_, ?_⟩
  · intro hq; unfold findText; rw [if_pos hq]
  · intro hnone
    unfold findText
    by_cases hq : q = []
    · rw [if_pos hq]
    · rw [if_neg hq, hnone]
  · intro sess hcur hq hfind
    unfold findText
    rw [if_neg hq, hcur]
    refine ⟨by simp [editorFind, hfind], findFrom_none hq hfind⟩
  · intro sess i hcur hq hfind
    unfold findText
    rw [if_neg hq, hcur]
    obtain ⟨h1, h2, h3⟩ := findFrom_some hfind
    exact ⟨by simp [editorFind, hfind], h1, h2, h3⟩

/-- Witness for C8 (amended): a concrete search that fails even
case-insensitively reports "not found" and changes nothing. -/
theorem c8_witness :
    findText ⟨[⟨"abc".toList, [], [], ⟨0, 0⟩, false⟩], 0, true⟩ ("zz".toList) =
      (⟨[⟨"abc".toList, [], [], ⟨0, 0⟩, false⟩], 0, true⟩,
        some (Msg.notFound ("zz".toList))) :=
  ((c8_find_amended ⟨[⟨"abc".toList, [], [], ⟨0, 0⟩, false⟩], 0, true⟩
    ("zz".toList)).2.2.1
    ⟨"abc".toList, [], [], ⟨0, 0⟩, false⟩ rfl (by decide) (by decide)).1

/-- C10: a substituting `replaceAllText` rewrites the current session's
whole text in one `setPlainText` assignment, so afterwards the current
session holds the replaced text with the cursor collapsed at the start
of the document and no selection (and, `setPlainText` ending with
`setModified(false)`, the document left unmodified). -/
theorem c10_replaceAll_resets_cursor (st : EditorState) (sess : Session) (q r : Str)
    (hq : q ≠ []) (hcur : currentSession st = some sess)
    (h0 : qtCount sess.text q ≠ 0) :
    currentSession (replaceAllText st q r).1 =
      some { sess with
              text := qtReplace sess.text q r
              cursor := ⟨0, 0⟩
              modified := false } ∧
    hasSelection (⟨0, 0⟩ : Cursor) = false := by
  refine ⟨?_, by decide⟩
  unfold replaceAllText
  rw [if_neg hq, hcur]
  unfold replaceAllSession
  simp only [h0, if_neg h0]
  exact currentSession_setCurrentSession hcur

/-- Witness for C10 at a concrete substituting replace-all. -/
theorem c10_witness :
    currentSession
        (replaceAllText ⟨[⟨"abab".toList, [], [], ⟨1, 3⟩, false⟩], 0, true⟩
          ("ab".toList) ("z".toList)).1 =
      some { (⟨"abab".toList, [], [], ⟨1, 3⟩, false⟩ : Session) with
              text := qtReplace ("abab".toList) ("ab".toList) ("z".toList)
              cursor := ⟨0, 0⟩
              modified := false } :=
  (c10_replaceAll_resets_cursor ⟨[⟨"abab".toList, [], [], ⟨1, 3⟩, false⟩], 0, true⟩
    ⟨"abab".toList, [], [], ⟨1, 3⟩, false⟩ ("ab".toList) ("z".toList)
    (by decide) rfl (by decide)).1

/-- C1 counterexample: text `"aaa"`, query `"aa"`, replacement `"ba"`.
The text has exactly one non-overlapping occurrence of the query and
the replacement does not contain the query, yet the code reports 2
substitutions (`QString::count` counts overlapping occurrences) and the
resulting text `"baa"` still contains one occurrence of the query. -/
theorem c1_counterexample :
    countNonOverlap ("aaa".toList) ("aa".toList) = 1 ∧
    qtCount ("ba".toList) ("aa".toList) = 0 ∧
    (replaceAllSession ⟨"aaa".toList, [], [], ⟨0, 0⟩, false⟩
        ("aa".toList) ("ba".toList)).2 =
      some (Msg.replacedCount 2 ("aa".toList) ("ba".toList)) ∧
    qtCount (replaceAllSession ⟨"aaa".toList, [], [], ⟨0, 0⟩, false⟩
        ("aa".toList) ("ba".toList)).1.text ("aa".toList) = 1 := by
  have hc : qtCount (['a', 'a', 'a'] : Str) ['a', 'a'] = 2 := by decide
  have hr : qtReplace (['a', 'a', 'a'] : Str) ['a', 'a'] ['b', 'a'] = ['b', 'a', 'a'] := by
    simp [qtReplace, List.isPrefixOf]
  refine ⟨by simp [countNonOverlap, List.isPrefixOf], by decide, ?_, ?_⟩
  · simp [replaceAllSession, hc]
  · simp only [replaceAllSession, setPlainText]
    simp [hc, hr]
    decide

/-- C1 (amended): when the current session's text contains at least one
occurrence of the non-empty query, `replaceAllText` rewrites the text
to the result of replacing the non-overlapping left-to-right
occurrences (inserted replacement text not rescanned) and reports the
number of *possibly overlapping* occurrences of the query in the
original text; that report is an upper bound on the substitutions
performed, and for a single-character query it is exact and the result
is guaranteed query-free whenever the replacement avoids the query
character. -/
theorem c1_replaceAll_amended (st : EditorState) (sess : Session) (q r : Str)
    (hq : q ≠ []) (hcur : currentSession st = some sess)
    (h0 : qtCount sess.text q ≠ 0) :
    replaceAllText st q r =
      (setCurrentSession st (setPlainText sess (qtReplace sess.text q r)),
        some (Msg.replacedCount (qtCount sess.text q) q r)) ∧
    countNonOverlap sess.text q ≤ qtCount sess.text q ∧
    (∀ c : Char, q = [c] →
      qtCount sess.text q = countNonOverlap sess.text q ∧
      (c ∉ r → qtCount (qtReplace sess.text q r) q = 0)) := by
  refine ⟨?_, countNonOverlap_le_qtCount q hq sess.text, ?_⟩
  · unfold replaceAllText
    rw [if_neg hq]
    simp only [hcur]
    unfold replaceAllSession
    simp [h0]
  · intro c hqc
    subst hqc
    refine ⟨by rw [qtCount_singleton, countNonOverlap_singleton], fun hcr => ?_⟩
    rw [qtCount_singleton]
    exact qtReplace_singleton_count hcr sess.text

/-- Witness for C1 (amended) at the spec's own scenario
`"foo bar foo"`, `"foo"` → `"baz"`. -/
theorem c1_witness :
    replaceAllText ⟨[⟨"foo bar foo".toList, [], [], ⟨0, 0⟩, false⟩], 0, true⟩
        ("foo".toList) ("baz".toList) =
      (setCurrentSession ⟨[⟨"foo bar foo".toList, [], [], ⟨0, 0⟩, false⟩], 0, true⟩
        (setPlainText ⟨"foo bar foo".toList, [], [], ⟨0, 0⟩, false⟩
          (qtReplace ("foo bar foo".toList) ("foo".toList) ("baz".toList))),
        some (Msg.replacedCount (qtCount ("foo bar foo".toList) ("foo".toList))
          ("foo".toList) ("baz".toList))) :=
  (c1_replaceAll_amended ⟨[⟨"foo bar foo".toList, [], [], ⟨0, 0⟩, false⟩], 0, true⟩
    ⟨"foo bar foo".toList, [], [], ⟨0, 0⟩, false⟩ ("foo".toList) ("baz".toList)
    (by decide) rfl (by decide)).1

/-- C3 counterexample: a session is bound to `/a.txt` (tab index 0) but
the file is now unreadable.  The claim demands that `openPath`
activate that session regardless; the code instead raises the IO-error
warning and leaves the current index at 1. -/
theorem c3_counterexample :
    (⟨[⟨[], "/a.txt".toList, "a.txt".toList, ⟨0, 0⟩, false⟩,
        ⟨[], [], "Untitled".toList, ⟨0, 0⟩, false⟩], 1, true⟩ :
          EditorState).sessions.findIdx?
        (fun s => s.filePath == "/a.txt".toList) = some 0 ∧
    (openFileFromEvent (fun _ => none)
        ⟨[⟨[], "/a.txt".toList, "a.txt".toList, ⟨0, 0⟩, false⟩,
          ⟨[], [], "Untitled".toList, ⟨0, 0⟩, false⟩], 1, true⟩
        ("/a.txt".toList)).1.current = 1 ∧
    (openFileFromEvent (fun _ => none)
        ⟨[⟨[], "/a.txt".toList, "a.txt".toList, ⟨0, 0⟩, false⟩,
          ⟨[], [], "Untitled".toList, ⟨0, 0⟩, false⟩], 1, true⟩
        ("/a.txt".toList)).2 = some Msg.ioErrorOpen := by
  decide

/-- C3 (amended): provided the file at the path is readable, opening a
path some session is already bound to activates that session and
returns, adding no session and loading nothing; and opening a readable
path twice in a row, starting with no session bound to it, leaves
exactly one session bound to it.  (When the file is unreadable the code
instead raises an IO error without activating anything.) -/
theorem c3_open_already_open (fs : Str → Option Str) (st : EditorState) (p content : Str)
    (hread : fs p = some content) :
    (∀ i, st.sessions.findIdx? (fun s => s.filePath == p) = some i →
      openFileFromEvent fs st p = ({ st with current := i }, none)) ∧
    (countBound st.sessions p = 0 →
      countBound ((openFileFromEvent fs (openFileFromEvent fs st p).1 p).1).sessions p
        = 1) := by
  constructor
  · intro i hidx
    unfold openFileFromEvent
    rw [hread, hidx]
  · intro h0
    have hnone : st.sessions.findIdx? (fun s => s.filePath == p) = none :=
      countBound_eq_zero_iff_findIdx?_none.mp h0
    have hpred : (newSessionFor p content).filePath == p := by
      simp [newSessionFor]
    have h1 : openFileFromEvent fs st p =
        (⟨st.sessions ++ [newSessionFor p content], st.sessions.length, false⟩, none) := by
      unfold openFileFromEvent
      rw [hread, hnone]
    rw [h1]
    have hidx2 : (st.sessions ++ [newSessionFor p content]).findIdx?
        (fun s => s.filePath == p) = some st.sessions.length := by
      rw [List.findIdx?_append, hnone]
      simp [List.findIdx?_cons, hpred]
    have h2 : openFileFromEvent fs
        (⟨st.sessions ++ [newSessionFor p content], st.sessions.length, false⟩ :
          EditorState) p =
        (⟨st.sessions ++ [newSessionFor p content], st.sessions.length, false⟩, none) := by
      unfold openFileFromEvent
      rw [hread, hidx2]
    rw [h2]
    show countBound (st.sessions ++ [newSessionFor p content]) p = 1
    rw [countBound_append, h0]
    simp [countBound, List.filter_cons, hpred]

/-- Witness for C3 (amended): re-opening a concrete readable,
already-open path activates its tab and adds nothing. -/
theorem c3_witness :
    openFileFromEvent (fun _ => some ("hi".toList))
        ⟨[⟨"old".toList, "/a.txt".toList, "a.txt".toList, ⟨0, 0⟩, true⟩], 0, true⟩
        ("/a.txt".toList) =
      ({ (⟨[⟨"old".toList, "/a.txt".toList, "a.txt".toList, ⟨0, 0⟩, true⟩], 0, true⟩ :
          EditorState) with current := 0 }, none) :=
  (c3_open_already_open (fun _ => some ("hi".toList))
    ⟨[⟨"old".toList, "/a.txt".toList, "a.txt".toList, ⟨0, 0⟩, true⟩], 0, true⟩
    ("/a.txt".toList) ("hi".toList) rfl).1 0 (by decide)

end Mactext
